import Mathlib

/-!
Verification development for the PDF text-extraction and discard-provenance
pipeline of the PDFTools repository.

Text is modelled as `List Char`. Python's `str.strip` is `pyStrip`, `str.split`
on a separator character is `splitOnChar`, `'\n'.join` is `joinLines`,
`re.sub(' {2,}', ' ', ·)` is `collapseSpaces`, and `str.find(sub, start)`
(returning -1 on failure) is `pyFind`. Machine integers are `Nat`/`Int`;
the float statistics of `get_statistics` are modelled over `ℚ` with
`round(x, 2)` modelled by `roundTo2`.
-/

/-- Whitespace set of Python's `str.strip` and `\s` (ASCII part). -/
def pyIsSpace (c : Char) : Bool :=
  c = ' ' || c = '\t' || c = '\n' || c = '\r' || c = '\x0b' || c = '\x0c'

/-- Drop trailing whitespace (the right half of Python `str.strip`). -/
def rdropWs (s : List Char) : List Char :=
  (s.reverse.dropWhile pyIsSpace).reverse

/-- Python `str.strip()`. -/
def pyStrip (s : List Char) : List Char :=
  rdropWs (s.dropWhile pyIsSpace)

/-- Python `str.split(sep)` for a single-character separator. -/
def splitOnChar (sep : Char) : List Char → List (List Char)
  | [] => [[]]
  | c :: rest =>
    match splitOnChar sep rest with
    | [] => [[]]
    | h :: t => if c = sep then [] :: h :: t else (c :: h) :: t

/-- Python `'\n'.join`. -/
def joinLines : List (List Char) → List Char
  | [] => []
  | [l] => l
  | l :: l' :: ls => l ++ '\n' :: joinLines (l' :: ls)

/-- Python `re.sub(r' {2,}', ' ', text)`: collapse every run of two or more
spaces to a single space (equivalently, every run of spaces to one space). -/
def collapseSpaces : List Char → List Char
  | [] => []
  | [a] => [a]
  | a :: b :: rest =>
    if a = ' ' ∧ b = ' ' then collapseSpaces (b :: rest)
    else a :: collapseSpaces (b :: rest)

/-- Python `text.find(sub, start)` for `start ≥ 0`: the least index `i ≥ start`
at which `sub` occurs in `text`, or `-1` when there is none. -/
def pyFind (text sub : List Char) (start : Nat) : Int :=
  match (List.range (text.length + 1)).find?
      (fun i => start ≤ i && sub.isPrefixOf (text.drop i)) with
  | some i => (i : Int)
  | none => -1

/-- `DiscardType` from discard_tracker.py. -/
inductive DiscardType where
  | PAGE_NUMBER
  | HEADER_FOOTER
  | ARXIV_METADATA
  | DATE_FOOTER
  | SEPARATOR_LINE
  | SHORT_LINE
  | REFERENCES_SECTION
  | BIBLIOGRAPHY_ENTRY
  | OTHER
deriving DecidableEq

/-- `DiscardedItem` from discard_tracker.py. -/
structure DiscardedItem where
  discard_type : DiscardType
  content : List Char
  page_number : Nat
  line_number : Nat
  reason : String
deriving DecidableEq

/-- `DiscardTracker` from discard_tracker.py. -/
structure DiscardTracker where
  page_numbers_removed : Nat
  headers_footers_removed : Nat
  arxiv_metadata_removed : Nat
  date_footers_removed : Nat
  separator_lines_removed : Nat
  short_lines_removed : Nat
  references_sections_removed : Nat
  bibliography_entries_removed : Nat
  other_removed : Nat
  discarded_items : List DiscardedItem
  total_lines_processed : Nat
  total_lines_discarded : Nat
  original_character_count : Nat
  final_character_count : Nat
deriving DecidableEq

/-- The dataclass defaults: a freshly constructed `DiscardTracker()`. -/
def DiscardTracker.empty : DiscardTracker :=
  ⟨0, 0, 0, 0, 0, 0, 0, 0, 0, [], 0, 0, 0, 0⟩

/-- `DiscardTracker.add_discard`: append one record, bump the total and the
counter of the matching category (the `else` branch catches `OTHER`). -/
def DiscardTracker.add_discard (t : DiscardTracker) (discard_type : DiscardType)
    (content : List Char) (page : Nat) (line : Nat) (reason : String) :
    DiscardTracker :=
  let t := { t with
    discarded_items := t.discarded_items ++
      [(⟨discard_type, content, page, line, reason⟩ : DiscardedItem)],
    total_lines_discarded := t.total_lines_discarded + 1 }
  match discard_type with
  | .PAGE_NUMBER => { t with page_numbers_removed := t.page_numbers_removed + 1 }
  | .HEADER_FOOTER => { t with headers_footers_removed := t.headers_footers_removed + 1 }
  | .ARXIV_METADATA => { t with arxiv_metadata_removed := t.arxiv_metadata_removed + 1 }
  | .DATE_FOOTER => { t with date_footers_removed := t.date_footers_removed + 1 }
  | .SEPARATOR_LINE => { t with separator_lines_removed := t.separator_lines_removed + 1 }
  | .SHORT_LINE => { t with short_lines_removed := t.short_lines_removed + 1 }
  | .REFERENCES_SECTION => { t with references_sections_removed := t.references_sections_removed + 1 }
  | .BIBLIOGRAPHY_ENTRY => { t with bibliography_entries_removed := t.bibliography_entries_removed + 1 }
  | .OTHER => { t with other_removed := t.other_removed + 1 }

/-- The per-category counter a `DiscardType` is tallied in. -/
def counterOf (t : DiscardTracker) : DiscardType → Nat
  | .PAGE_NUMBER => t.page_numbers_removed
  | .HEADER_FOOTER => t.headers_footers_removed
  | .ARXIV_METADATA => t.arxiv_metadata_removed
  | .DATE_FOOTER => t.date_footers_removed
  | .SEPARATOR_LINE => t.separator_lines_removed
  | .SHORT_LINE => t.short_lines_removed
  | .REFERENCES_SECTION => t.references_sections_removed
  | .BIBLIOGRAPHY_ENTRY => t.bibliography_entries_removed
  | .OTHER => t.other_removed

/-- Sum of the nine per-category counters. -/
def sumCounters (t : DiscardTracker) : Nat :=
  t.page_numbers_removed + t.headers_footers_removed + t.arxiv_metadata_removed +
  t.date_footers_removed + t.separator_lines_removed + t.short_lines_removed +
  t.references_sections_removed + t.bibliography_entries_removed + t.other_removed

/-- One recorded `add_discard` invocation (its argument tuple). -/
structure DiscardCall where
  discard_type : DiscardType
  content : List Char
  page : Nat
  line : Nat
  reason : String

/-- Apply a sequence of `add_discard` calls to a tracker. -/
def applyDiscards (t : DiscardTracker) (calls : List DiscardCall) : DiscardTracker :=
  calls.foldl (fun t c => t.add_discard c.discard_type c.content c.page c.line c.reason) t

/-- Python `round(q, 2)` modelled over `ℚ` (rounding to the nearest
hundredth). -/
def roundTo2 (q : ℚ) : ℚ :=
  ((round (q * 100) : ℤ) : ℚ) / 100

/-- The dictionary returned by `DiscardTracker.get_statistics`. -/
structure Statistics where
  total_lines_processed : Nat
  total_lines_discarded : Nat
  discard_rate_percent : ℚ
  original_characters : Nat
  final_characters : Nat
  characters_discarded : Int
  character_reduction_percent : ℚ

/-- `DiscardTracker.get_statistics`. -/
def DiscardTracker.get_statistics (t : DiscardTracker) : Statistics :=
  let discard_rate : ℚ :=
    if t.total_lines_processed > 0 then
      (t.total_lines_discarded : ℚ) / (t.total_lines_processed : ℚ) * 100
    else 0
  let char_reduction : Int :=
    (t.original_character_count : Int) - (t.final_character_count : Int)
  let char_reduction_percent : ℚ :=
    if t.original_character_count > 0 then
      (char_reduction : ℚ) / (t.original_character_count : ℚ) * 100
    else 0
  { total_lines_processed := t.total_lines_processed
    total_lines_discarded := t.total_lines_discarded
    discard_rate_percent := roundTo2 discard_rate
    original_characters := t.original_character_count
    final_characters := t.final_character_count
    characters_discarded := char_reduction
    character_reduction_percent := roundTo2 char_reduction_percent }

/-- First char is a decimal digit (`match` on the head, `False` on empty). -/
def headIsDigit : List Char → Bool
  | [] => false
  | c :: _ => c.isDigit

/-- Regex `^\d{1,3}$` on the stripped line: 1 to 3 decimal digits only. -/
def isPageNum (s : List Char) : Bool :=
  !s.isEmpty && s.length ≤ 3 && s.all Char.isDigit

/-- The `\d+\.\d+` part of the arXiv stamp pattern: at least one digit, a
dot, and at least one more digit. -/
def arxivTail (rest : List Char) : Bool :=
  !(rest.takeWhile Char.isDigit).isEmpty &&
  (match rest.dropWhile Char.isDigit with
   | c :: r2 => c = '.' && headIsDigit r2
   | [] => false)

/-- Regex `^arXiv:\d+\.\d+` on the stripped line (case sensitive prefix
match): the token `arXiv:` followed by digits, a dot and at least one more
digit. -/
def isArxiv (s : List Char) : Bool :=
  match s with
  | c1 :: c2 :: c3 :: c4 :: c5 :: c6 :: rest =>
    c1 = 'a' && c2 = 'r' && c3 = 'X' && c4 = 'i' && c5 = 'v' && c6 = ':' &&
    arxivTail rest
  | _ => false

/-- The three lowercase letters of one of the twelve month abbreviations. -/
def monthOK (a b c : Char) : Bool :=
  (a = 'j' && b = 'a' && c = 'n') || (a = 'f' && b = 'e' && c = 'b') ||
  (a = 'm' && b = 'a' && c = 'r') || (a = 'a' && b = 'p' && c = 'r') ||
  (a = 'm' && b = 'a' && c = 'y') || (a = 'j' && b = 'u' && c = 'n') ||
  (a = 'j' && b = 'u' && c = 'l') || (a = 'a' && b = 'u' && c = 'g') ||
  (a = 's' && b = 'e' && c = 'p') || (a = 'o' && b = 'c' && c = 't') ||
  (a = 'n' && b = 'o' && c = 'v') || (a = 'd' && b = 'e' && c = 'c')

/-- Regex `^\d+\s+(Jan|Feb|Mar|Apr|May|Jun|Jul|Aug|Sep|Oct|Nov|Dec)\s+\d{4}$`
with `re.IGNORECASE` on the stripped line. -/
def isDate (s : List Char) : Bool :=
  let r1 := s.dropWhile Char.isDigit
  let r2 := r1.dropWhile pyIsSpace
  !(s.takeWhile Char.isDigit).isEmpty &&
  !(r1.takeWhile pyIsSpace).isEmpty &&
  (match r2 with
   | a :: b :: c :: r3 =>
     monthOK a.toLower b.toLower c.toLower &&
     (let r4 := r3.dropWhile pyIsSpace
      !(r3.takeWhile pyIsSpace).isEmpty && r4.length = 4 && r4.all Char.isDigit)
   | _ => false)

/-- Regex `^[=\-*\s]{3,}$` on the stripped line. -/
def isSep (s : List Char) : Bool :=
  3 ≤ s.length && s.all (fun c => c = '=' || c = '-' || c = '*' || pyIsSpace c)

/-- Outcome of the ordered rule chain of `clean_page_text`. -/
inductive LineClass where
  | pageNumber
  | arxivMeta
  | dateFooter
  | separatorLine
  | shortLine
  | keep
deriving DecidableEq

/-- The ordered, first-match-wins rule chain of `clean_page_text`, applied to
the stripped line. -/
def classifyLine (stripped : List Char) : LineClass :=
  if isPageNum stripped then .pageNumber
  else if isArxiv stripped then .arxivMeta
  else if isDate stripped then .dateFooter
  else if isSep stripped then .separatorLine
  else if stripped.length < 3 then .shortLine
  else .keep

/-- Loop state of `clean_page_text`. -/
structure CleanState where
  cleaned_lines : List (List Char)
  line_num : Nat
  tracker : DiscardTracker
deriving DecidableEq

/-- One iteration of the line loop of `clean_page_text`. -/
def cleanStep (page_num : Nat) (st : CleanState) (line : List Char) : CleanState :=
  let line_num := st.line_num + 1
  let stripped := pyStrip line
  if stripped.isEmpty then { st with line_num := line_num }
  else
    let tr := { st.tracker with
      total_lines_processed := st.tracker.total_lines_processed + 1 }
    match classifyLine stripped with
    | .pageNumber =>
      { st with
        line_num := line_num,
        tracker := tr.add_discard .PAGE_NUMBER stripped page_num line_num
          ("Standalone page number") }
    | .arxivMeta =>
      { st with
        line_num := line_num,
        tracker := tr.add_discard .ARXIV_METADATA stripped page_num line_num
          ("arXiv header/footer") }
    | .dateFooter =>
      { st with
        line_num := line_num,
        tracker := tr.add_discard .DATE_FOOTER stripped page_num line_num
          ("Date footer line") }
    | .separatorLine =>
      { st with
        line_num := line_num,
        tracker := tr.add_discard .SEPARATOR_LINE stripped page_num line_num
          ("Separator/divider line") }
    | .shortLine =>
      { st with
        line_num := line_num,
        tracker := tr.add_discard .SHORT_LINE stripped page_num line_num
          ("Too short (< 3 chars)") }
    | .keep =>
      { st with
        line_num := line_num,
        tracker := tr,
        cleaned_lines := st.cleaned_lines ++ [line] }

/-- `clean_page_text` from pdftext_utils.py: split into lines, run the rule
chain on every line, rejoin the kept (raw) lines and collapse space runs. -/
def clean_page_text (text : List Char) (page_num : Nat)
    (tracker : DiscardTracker) : List Char × DiscardTracker :=
  let lines := splitOnChar '\n' text
  let st := lines.foldl (cleanStep page_num) ⟨[], 0, tracker⟩
  (collapseSpaces (joinLines st.cleaned_lines), st.tracker)

/-- A line that `clean_page_text` keeps: non-blank after stripping and
classified `keep`. -/
def keptLine (l : List Char) : Bool :=
  !(pyStrip l).isEmpty && decide (classifyLine (pyStrip l) = .keep)

/-- Whether a stripped line matches the reference-section header pattern
`^\s*(?:References|Bibliography|REFERENCES|BIBLIOGRAPHY)\s*$` with
`re.IGNORECASE`. -/
def isRefHeader (line : List Char) : Bool :=
  let t := (pyStrip line).map Char.toLower
  t = ("references".toList) || t = ("bibliography".toList)

/-- Whether a line after the header is logged as a bibliography entry:
non-blank after stripping and not starting with `'='`. -/
def isBibLine (line : List Char) : Bool :=
  let stripped := pyStrip line
  !stripped.isEmpty && !(stripped.head? = some '=' : Bool)

/-- The fold that logs bibliography entries (index, line) pairs. -/
def bibStep (tr : DiscardTracker) (il : Nat × List Char) : DiscardTracker :=
  let stripped := pyStrip il.2
  if isBibLine il.2 then
    tr.add_discard .BIBLIOGRAPHY_ENTRY stripped 0 il.1
      ("Bibliography/reference entry")
  else tr

/-- `remove_references` from pdftext_utils.py. -/
def remove_references (text : List Char) (tracker : DiscardTracker) :
    List Char × DiscardTracker :=
  let lines := splitOnChar '\n' text
  match List.findIdx? isRefHeader lines with
  | none => (text, tracker)
  | some k =>
    let tracker1 := tracker.add_discard .REFERENCES_SECTION (lines.getD k []) k 0
      ("References section header")
    let tracker2 := (List.enumFrom (k + 1) (lines.drop (k + 1))).foldl bibStep tracker1
    (joinLines (lines.take k), tracker2)

/-- `calculate_page_position` from pdftext_utils.py:
`sum(1 for b in page_boundaries[1:] if b <= position)`. -/
def calculate_page_position (position : Int) (page_boundaries : List Int) : Nat :=
  ((page_boundaries.drop 1).map (fun b => if b ≤ position then 1 else 0)).sum

/-- `extract_and_clean` from pdftext_utils.py, over an abstract page-text
sequence (the PDF reader is an external collaborator; an empty list stands
for a falsy `page.extract_text()` result). Returns the reference-stripped
text, the page boundary table and the tracker. -/
def extract_and_clean (pages : List (List Char)) (tracker : DiscardTracker) :
    List Char × List Int × DiscardTracker :=
  let st := pages.enum.foldl
    (fun (st : List Int × List Char × DiscardTracker) pg =>
      let (bs, ft, tr) := st
      if pg.2.isEmpty then (bs ++ [(ft.length : Int)], ft, tr)
      else
        let c := clean_page_text pg.2 pg.1 tr
        let ft' := ft ++ c.1 ++ ['\n']
        (bs ++ [(ft'.length : Int)], ft', c.2))
    ([(0 : Int)], [], tracker)
  let (bs, ft, tr) := st
  let tr := { tr with original_character_count := ft.length }
  let r := remove_references ft tr
  (r.1, bs, r.2)

/-- Sentence-terminal characters of the split pattern `(?<=[.!?])\s+`. -/
def isTerminalChar (c : Char) : Bool :=
  c = '.' || c = '!' || c = '?'

/-- Recursive engine for `re.split(r'(?<=[.!?])\s+', text)`. `cur` holds the
current fragment reversed (so its head is the previously scanned character,
the lookbehind position); `delim` is true while consuming a whitespace
delimiter run. -/
def splitSentAux (delim : Bool) (cur : List Char) : List Char → List (List Char)
  | [] => [cur.reverse]
  | c :: rest =>
    if pyIsSpace c then
      if delim then splitSentAux true cur rest
      else if (cur.head?.map isTerminalChar).getD false then
        cur.reverse :: splitSentAux true [] rest
      else splitSentAux false (c :: cur) rest
    else splitSentAux false (c :: cur) rest

/-- `re.split(r'(?<=[.!?])\s+', text)`: split at every maximal whitespace run
whose preceding character is `.`, `!` or `?`. -/
def splitSent (text : List Char) : List (List Char) :=
  splitSentAux false [] text

/-- Offset recovery of the sentence segmenter: `full_text.find(sentence,
char_pos)`, falling back to `char_pos` on `-1`, then `end = start + len`. -/
def sentLocate (full_text : List Char) (char_pos : Nat) (sentence : List Char) :
    Nat × Nat :=
  let s0 := pyFind full_text sentence char_pos
  let sentence_start := if s0 = -1 then char_pos else s0.toNat
  (sentence_start, sentence_start + sentence.length)

/-- Loop state of `extract_sentences`. -/
structure SentState where
  sentences : List (List Char)
  page_starts : List Nat
  page_ends : List Nat
  char_pos : Nat
  tracker : DiscardTracker
deriving DecidableEq

/-- One iteration of the fragment loop of `extract_sentences`. -/
def sentStep (full_text : List Char) (bs : List Int) (st : SentState)
    (raw : List Char) : SentState :=
  let sentence := pyStrip raw
  if sentence.length < 10 then
    { st with
      tracker := st.tracker.add_discard .SHORT_LINE sentence 0 0
        ("Sentence < 10 chars") }
  else if !sentence.isEmpty && sentence.all Char.isDigit then
    { st with
      tracker := st.tracker.add_discard .PAGE_NUMBER sentence 0 0
        ("Sentence is just a number") }
  else
    let se := sentLocate full_text st.char_pos sentence
    { st with
      sentences := st.sentences ++ [sentence],
      page_starts := st.page_starts ++ [calculate_page_position (se.1 : Int) bs],
      page_ends := st.page_ends ++ [calculate_page_position (se.2 : Int) bs],
      char_pos := se.2 }

/-- Result of a segmenter: the ordered units, their page spans, and the
tracker. -/
structure SegResult where
  units : List (List Char)
  page_starts : List Nat
  page_ends : List Nat
  tracker : DiscardTracker
deriving DecidableEq

/-- `extract_sentences` from scripts/extract_sentences.py. -/
def extract_sentences (full_text : List Char) (bs : List Int)
    (tracker : DiscardTracker) : SegResult :=
  let raw_sentences := splitSent full_text
  let st := raw_sentences.foldl (sentStep full_text bs) ⟨[], [], [], 0, tracker⟩
  { units := st.sentences,
    page_starts := st.page_starts,
    page_ends := st.page_ends,
    tracker := { st.tracker with
      final_character_count := (st.sentences.map List.length).sum } }

/-- Offset recovery of the paragraph segmenter (`save_paragraph`): the raw
`full_text.find(para_text, char_start)` result (possibly `-1`) is kept as the
start offset; the end offset falls back to `char_start` when the find
failed. -/
def paraLocate (full_text : List Char) (char_start : Nat)
    (para_text : List Char) : Int × Int :=
  let para_start := pyFind full_text para_text char_start
  let para_end : Int :=
    if para_start ≠ -1 then para_start + para_text.length else (char_start : Int)
  (para_start, para_end)

/-- Loop state of `extract_all_paragraphs` (the tracker is untouched by the
loop). -/
structure ParaState where
  paragraphs : List (List Char)
  page_starts : List Nat
  page_ends : List Nat
  char_start : Nat
deriving DecidableEq

/-- `save_paragraph` from scripts/extract_paragraphs.py (with the default
`min_length=20`): flush a candidate paragraph if its stripped text is long
enough, else do nothing. -/
def save_paragraph (full_text : List Char) (bs : List Int) (st : ParaState)
    (para_lines : List (List Char)) : ParaState :=
  let para_text := pyStrip (joinLines para_lines)
  if 20 ≤ para_text.length then
    let pe := paraLocate full_text st.char_start para_text
    { paragraphs := st.paragraphs ++ [para_text],
      page_starts := st.page_starts ++ [calculate_page_position pe.1 bs],
      page_ends := st.page_ends ++ [calculate_page_position pe.2 bs],
      char_start := pe.2.toNat }
  else st

/-- The numbered-section-header test of `extract_all_paragraphs`: the stripped
line is non-empty and starts with a digit, a `'.'` occurs in the raw line's
first five characters, and content has already accumulated. -/
def isSectionHeader (line : List Char) (current : List (List Char)) : Bool :=
  !(pyStrip line).isEmpty && headIsDigit (pyStrip line) &&
  (line.take 5).contains '.' && !current.isEmpty

/-- One iteration of the line loop of `extract_all_paragraphs`. -/
def paraStep (full_text : List Char) (bs : List Int)
    (st : ParaState × List (List Char)) (line : List Char) :
    ParaState × List (List Char) :=
  if isSectionHeader line st.2 then
    (save_paragraph full_text bs st.1 st.2, [line])
  else (st.1, st.2 ++ [line])

/-- `extract_all_paragraphs` from scripts/extract_paragraphs.py. -/
def extract_all_paragraphs (full_text : List Char) (bs : List Int)
    (tracker : DiscardTracker) : SegResult :=
  let lines := splitOnChar '\n' full_text
  let st := lines.foldl (paraStep full_text bs) (⟨[], [], [], 0⟩, [])
  let ps := if !st.2.isEmpty then save_paragraph full_text bs st.1 st.2 else st.1
  { units := ps.paragraphs,
    page_starts := ps.page_starts,
    page_ends := ps.page_ends,
    tracker := { tracker with
      final_character_count := (ps.paragraphs.map List.length).sum } }

/-- The full sentence pipeline: extract and clean all pages, strip the
references section, then segment into sentences. -/
def sentencePipeline (pages : List (List Char)) (tracker : DiscardTracker) :
    SegResult :=
  let e := extract_and_clean pages tracker
  extract_sentences e.1 e.2.1 e.2.2

/-- The full paragraph pipeline: extract and clean all pages, strip the
references section, then segment into paragraphs. -/
def paragraphPipeline (pages : List (List Char)) (tracker : DiscardTracker) :
    SegResult :=
  let e := extract_and_clean pages tracker
  extract_all_paragraphs e.1 e.2.1 e.2.2

/-- The discard-relevant projection of a tracker: the record list, the running
total and the nine per-category counters (everything except
`total_lines_processed` and the two character counts). -/
def discardState (t : DiscardTracker) :
    List DiscardedItem × Nat × Nat × Nat × Nat × Nat × Nat × Nat × Nat × Nat × Nat :=
  (t.discarded_items, t.total_lines_discarded, t.page_numbers_removed,
   t.headers_footers_removed, t.arxiv_metadata_removed, t.date_footers_removed,
   t.separator_lines_removed, t.short_lines_removed,
   t.references_sections_removed, t.bibliography_entries_removed,
   t.other_removed)

/-! ## Helper lemmas -/

theorem add_discard_len (t : DiscardTracker) (ty : DiscardType) (c : List Char)
    (p l : Nat) (r : String) :
    (t.add_discard ty c p l r).discarded_items.length =
      t.discarded_items.length + 1 := by
  cases ty <;> simp [DiscardTracker.add_discard]

theorem add_discard_total (t : DiscardTracker) (ty : DiscardType) (c : List Char)
    (p l : Nat) (r : String) :
    (t.add_discard ty c p l r).total_lines_discarded =
      t.total_lines_discarded + 1 := by
  cases ty <;> simp [DiscardTracker.add_discard]

theorem add_discard_counterOf_self (t : DiscardTracker) (ty : DiscardType)
    (c : List Char) (p l : Nat) (r : String) :
    counterOf (t.add_discard ty c p l r) ty = counterOf t ty + 1 := by
  cases ty <;> simp [DiscardTracker.add_discard, counterOf]

theorem add_discard_counterOf_other (t : DiscardTracker) (ty : DiscardType)
    (c : List Char) (p l : Nat) (r : String) (ty' : DiscardType) (h : ty' ≠ ty) :
    counterOf (t.add_discard ty c p l r) ty' = counterOf t ty' := by
  cases ty <;> cases ty' <;>
    simp_all [DiscardTracker.add_discard, counterOf]

theorem add_discard_sumCounters (t : DiscardTracker) (ty : DiscardType)
    (c : List Char) (p l : Nat) (r : String) :
    sumCounters (t.add_discard ty c p l r) = sumCounters t + 1 := by
  cases ty <;> (simp [DiscardTracker.add_discard, sumCounters]; omega)

theorem applyDiscards_inv (calls : List DiscardCall) :
    ∀ t : DiscardTracker,
      t.total_lines_discarded = t.discarded_items.length →
      t.total_lines_discarded = sumCounters t →
      (applyDiscards t calls).total_lines_discarded =
        (applyDiscards t calls).discarded_items.length ∧
      (applyDiscards t calls).total_lines_discarded =
        sumCounters (applyDiscards t calls) := by
  induction calls with
  | nil => intro t h1 h2; exact ⟨h1, h2⟩
  | cons c cs ih =>
    intro t h1 h2
    have e : applyDiscards t (c :: cs) =
        applyDiscards (t.add_discard c.discard_type c.content c.page c.line c.reason) cs := rfl
    rw [e]
    refine ih _ ?_ ?_
    · rw [add_discard_total, add_discard_len, h1]
    · rw [add_discard_total, add_discard_sumCounters, h2]

theorem sum_indicator_countP (p : Int) (l : List Int) :
    (l.map (fun b => if b ≤ p then 1 else 0)).sum =
      l.countP (fun b => decide (b ≤ p)) := by
  induction l with
  | nil => rfl
  | cons a l ih =>
    rw [List.map_cons, List.sum_cons, List.countP_cons, ih]
    by_cases h : a ≤ p <;> simp [h] <;> try omega

/-! ## Claim theorems -/

/-- Claim C1: starting from an empty `DiscardTracker`, any sequence of
`add_discard` calls keeps `total_lines_discarded` equal to the length of
`discarded_items` and to the sum of the nine per-category counters, and every
single `add_discard` appends exactly one record, bumps the total by one, bumps
the counter of its own category by one and leaves every other category
counter unchanged. -/
theorem claim_C1 :
    (∀ calls : List DiscardCall,
      (applyDiscards DiscardTracker.empty calls).total_lines_discarded =
        (applyDiscards DiscardTracker.empty calls).discarded_items.length ∧
      (applyDiscards DiscardTracker.empty calls).total_lines_discarded =
        sumCounters (applyDiscards DiscardTracker.empty calls)) ∧
    (∀ (t : DiscardTracker) (ty : DiscardType) (c : List Char) (p l : Nat)
        (r : String),
      (t.add_discard ty c p l r).discarded_items.length =
        t.discarded_items.length + 1 ∧
      (t.add_discard ty c p l r).total_lines_discarded =
        t.total_lines_discarded + 1 ∧
      counterOf (t.add_discard ty c p l r) ty = counterOf t ty + 1 ∧
      ∀ ty' : DiscardType, ty' ≠ ty →
        counterOf (t.add_discard ty c p l r) ty' = counterOf t ty') := by
  constructor
  · intro calls
    exact applyDiscards_inv calls DiscardTracker.empty rfl rfl
  · intro t ty c p l r
    exact ⟨add_discard_len t ty c p l r, add_discard_total t ty c p l r,
      add_discard_counterOf_self t ty c p l r,
      fun ty' h => add_discard_counterOf_other t ty c p l r ty' h⟩

/-- Witness for C1: a concrete `add_discard` of a page number leaves the
short-line counter unchanged. -/
theorem claim_C1_witness :
    counterOf (DiscardTracker.empty.add_discard DiscardType.PAGE_NUMBER [] 0 0
      ("x")) DiscardType.SHORT_LINE =
      counterOf DiscardTracker.empty DiscardType.SHORT_LINE :=
  (claim_C1.2 DiscardTracker.empty DiscardType.PAGE_NUMBER [] 0 0 ("x")).2.2.2
    DiscardType.SHORT_LINE (by decide)

/-- Claim C7: `get_statistics` reports a discard rate of 0 when no line was
processed (never dividing by zero) and otherwise
`100 * discarded / processed`, rounded to 2 decimal places. -/
theorem claim_C7 (t : DiscardTracker) :
    (t.get_statistics).discard_rate_percent =
      if t.total_lines_processed = 0 then 0
      else roundTo2 (100 * (t.total_lines_discarded : ℚ) /
        (t.total_lines_processed : ℚ)) := by
  unfold DiscardTracker.get_statistics
  by_cases h : t.total_lines_processed = 0
  · simp [h, roundTo2]
  · have h' : 0 < t.total_lines_processed := Nat.pos_of_ne_zero h
    have e : (t.total_lines_discarded : ℚ) / (t.total_lines_processed : ℚ) * 100 =
        100 * (t.total_lines_discarded : ℚ) / (t.total_lines_processed : ℚ) := by
      ring
    simp only [h', if_pos, if_neg h, e]

/-- Claim C3: `calculate_page_position` is the count of boundary entries after
the leading 0 that are `≤` the offset; an offset at least every boundary maps
to `len(b) - 1`; and the three documented examples hold. -/
theorem claim_C3 :
    (∀ (p : Int) (bs : List Int), bs.head? = some 0 → 0 ≤ p →
      calculate_page_position p bs =
        (bs.drop 1).countP (fun b => decide (b ≤ p))) ∧
    (∀ (p : Int) (bs : List Int), bs ≠ [] → (∀ b ∈ bs.drop 1, b ≤ p) →
      calculate_page_position p bs = bs.length - 1) ∧
    (calculate_page_position 1000 [0, 1000, 2000, 3000] = 1 ∧
     calculate_page_position 2500 [0, 1000, 2000, 3000] = 2 ∧
     calculate_page_position 5000 [0, 1000, 2000, 3000] = 3) := by
  refine ⟨?_, ?_, by decide⟩
  · intro p bs _ _
    exact sum_indicator_countP p (bs.drop 1)
  · intro p bs _ hall
    unfold calculate_page_position
    rw [sum_indicator_countP]
    rw [List.countP_eq_length.mpr (fun b hb => by
      simpa using hall b hb)]
    exact List.length_drop 1 bs

/-- Witness for C3 at the documented boundary table. -/
theorem claim_C3_witness :
    calculate_page_position 1000 [0, 1000, 2000, 3000] =
      ([1000, 2000, 3000] : List Int).countP (fun b => decide (b ≤ (1000 : Int))) ∧
    calculate_page_position 5000 [0, 1000, 2000, 3000] =
      ([0, 1000, 2000, 3000] : List Int).length - 1 :=
  ⟨claim_C3.1 1000 [0, 1000, 2000, 3000] rfl (by decide),
   claim_C3.2.1 5000 [0, 1000, 2000, 3000] (by decide) (by decide)⟩

/-- Claim C10: `calculate_page_position` is total over every integer offset,
returning at most `len(b) - 1`; for a table whose entries after the leading 0
are positive, every negative offset maps to page 0; and the paragraph
segmenter's fallback really hands the raw `-1` find result to the mapper as
the start offset. -/
theorem claim_C10 :
    (∀ (p : Int) (bs : List Int), calculate_page_position p bs ≤ bs.length - 1) ∧
    (∀ (p : Int) (bs : List Int), (∀ b ∈ bs.drop 1, 0 < b) → p < 0 →
      calculate_page_position p bs = 0) ∧
    (∀ (full_text : List Char) (char_start : Nat) (para_text : List Char),
      pyFind full_text para_text char_start = -1 →
      (paraLocate full_text char_start para_text).1 = -1 ∧
      (paraLocate full_text char_start para_text).2 = (char_start : Int)) := by
  refine ⟨?_, ?_, ?_⟩
  · intro p bs
    unfold calculate_page_position
    rw [sum_indicator_countP]
    calc (bs.drop 1).countP (fun b => decide (b ≤ p)) ≤ (bs.drop 1).length :=
          List.countP_le_length _
      _ = bs.length - 1 := List.length_drop 1 bs
  · intro p bs hpos hneg
    unfold calculate_page_position
    rw [sum_indicator_countP]
    refine List.countP_eq_zero.mpr (fun b hb => ?_)
    have := hpos b hb
    simp only [decide_eq_true_eq]
    omega
  · intro ft cs pt h
    constructor
    · simp [paraLocate, h]
    · simp [paraLocate, h]

/-- Witness for C10: a negative offset on a positive boundary table, and the
fallback of `paraLocate` on a concrete failed find. -/
theorem claim_C10_witness :
    calculate_page_position (-1) [0, 1000, 2000, 3000] = 0 ∧
    (paraLocate ("xyz".toList) 7 ("abcdefghijklmnopqrst".toList)).1 = -1 :=
  ⟨claim_C10.2.1 (-1) [0, 1000, 2000, 3000] (by decide) (by decide),
   (claim_C10.2.2 ("xyz".toList) 7 ("abcdefghijklmnopqrst".toList) (by decide)).1⟩

/-- Counterexample to C6 as stated: with the find failing (`pyFind = -1`), the
sentence segmenter assigns end offset cursor + length (not the cursor), the
paragraph segmenter assigns start offset `-1` (not the cursor), and the
paragraph cursor does not advance by the fragment length. -/
theorem claim_C6_counterexample :
    pyFind ("xyz".toList) ("abcdefghij".toList) 0 = -1 ∧
    (sentLocate ("xyz".toList) 0 ("abcdefghij".toList)).2 ≠ 0 ∧
    pyFind ("xyz".toList) ("abcdefghijklmnopqrst".toList) 0 = -1 ∧
    (paraLocate ("xyz".toList) 0 ("abcdefghijklmnopqrst".toList)).1 ≠ (0 : Int) ∧
    (save_paragraph ("xyz".toList) [(0 : Int)] ⟨[], [], [], 0⟩
      [("abcdefghijklmnopqrst".toList)]).char_start = 0 := by
  decide

/-- Claim C6 amended: when a fragment cannot be located at or after the
cursor, the sentence segmenter uses the cursor as start and cursor + length as
end (and the cursor advances to that end), while the paragraph segmenter hands
`-1` to the page mapper as start, uses the cursor as end, and its cursor does
not advance; no exception is raised in either segmenter. -/
theorem claim_C6_amended (full_text : List Char) (cursor : Nat)
    (frag : List Char) (h : pyFind full_text frag cursor = -1) :
    sentLocate full_text cursor frag = (cursor, cursor + frag.length) ∧
    paraLocate full_text cursor frag = (-1, (cursor : Int)) := by
  constructor
  · simp [sentLocate, h]
  · simp [paraLocate, h]

/-- Witness for the amended C6 at a concrete failed find. -/
theorem claim_C6_amended_witness :
    sentLocate ("xyz".toList) 5 ("abcdefghij".toList) = (5, 15) ∧
    paraLocate ("xyz".toList) 5 ("abcdefghij".toList) = (-1, (5 : Int)) := by
  have h := claim_C6_amended ("xyz".toList) 5 ("abcdefghij".toList) (by decide)
  exact ⟨h.1, h.2⟩

/-- Counterexample to C5 as stated: on a zero-page document the sentence
pipeline produces an empty unit list but not an all-zero ledger — the empty
fragment produced by splitting the empty text is logged as a short-line
discard. -/
theorem claim_C5_counterexample :
    (sentencePipeline [] DiscardTracker.empty).units = [] ∧
    (sentencePipeline [] DiscardTracker.empty).tracker.short_lines_removed = 1 ∧
    (sentencePipeline [] DiscardTracker.empty).tracker.discarded_items ≠ [] := by
  decide

/-- Claim C5 amended: on a zero-page document both pipelines produce an empty
unit list and no error; the paragraph pipeline's tracker is exactly the empty
tracker, while the sentence pipeline's tracker holds exactly one short-line
record (the empty fragment), `short_lines_removed = 1`,
`total_lines_discarded = 1` and `total_lines_processed = 0`. -/
theorem claim_C5_amended :
    (sentencePipeline [] DiscardTracker.empty).units = [] ∧
    (sentencePipeline [] DiscardTracker.empty).tracker =
      { DiscardTracker.empty with
        short_lines_removed := 1,
        total_lines_discarded := 1,
        discarded_items :=
          [⟨DiscardType.SHORT_LINE, [], 0, 0, "Sentence < 10 chars"⟩] } ∧
    (paragraphPipeline [] DiscardTracker.empty).units = [] ∧
    (paragraphPipeline [] DiscardTracker.empty).tracker = DiscardTracker.empty := by
  decide

/-- Claim C2: on every non-blank (after trimming) line the rule chain is
evaluated in the fixed order page-number, arXiv-metadata, date-footer,
separator, short-line, keep, with first match winning; blank lines change
neither the tracker nor the kept lines; and the documented scenario
`"Introduction\n1\nBody text"` keeps the two text lines and drops `"1"` as a
page number with `page_numbers_removed = 1`. -/
theorem claim_C2 :
    (∀ line : List Char, pyStrip line ≠ [] →
      ((classifyLine (pyStrip line) = .pageNumber ↔
         isPageNum (pyStrip line) = true) ∧
       (classifyLine (pyStrip line) = .arxivMeta ↔
         (isPageNum (pyStrip line) = false ∧ isArxiv (pyStrip line) = true)) ∧
       (classifyLine (pyStrip line) = .dateFooter ↔
         (isPageNum (pyStrip line) = false ∧ isArxiv (pyStrip line) = false ∧
          isDate (pyStrip line) = true)) ∧
       (classifyLine (pyStrip line) = .separatorLine ↔
         (isPageNum (pyStrip line) = false ∧ isArxiv (pyStrip line) = false ∧
          isDate (pyStrip line) = false ∧ isSep (pyStrip line) = true)) ∧
       (classifyLine (pyStrip line) = .shortLine ↔
         (isPageNum (pyStrip line) = false ∧ isArxiv (pyStrip line) = false ∧
          isDate (pyStrip line) = false ∧ isSep (pyStrip line) = false ∧
          (pyStrip line).length < 3)) ∧
       (classifyLine (pyStrip line) = .keep ↔
         (isPageNum (pyStrip line) = false ∧ isArxiv (pyStrip line) = false ∧
          isDate (pyStrip line) = false ∧ isSep (pyStrip line) = false ∧
          ¬(pyStrip line).length < 3)))) ∧
    (∀ (page_num : Nat) (st : CleanState) (line : List Char),
      pyStrip line = [] →
      cleanStep page_num st line = { st with line_num := st.line_num + 1 }) ∧
    (clean_page_text ("Introduction\n1\nBody text".toList) 0
        DiscardTracker.empty =
      (("Introduction\nBody text".toList),
       { DiscardTracker.empty with
         page_numbers_removed := 1,
         discarded_items :=
           [⟨DiscardType.PAGE_NUMBER, ['1'], 0, 2, "Standalone page number"⟩],
         total_lines_processed := 3,
         total_lines_discarded := 1 })) := by
  refine ⟨?_, ?_, by decide⟩
  · intro line _
    unfold classifyLine
    split_ifs with h1 h2 h3 h4 h5 <;> simp_all
  · intro page_num st line h
    unfold cleanStep
    simp [h]

/-- Witness for C2: the line `"1"` is classified as a page number, and a
blank line leaves the state unchanged apart from the line counter. -/
theorem claim_C2_witness :
    classifyLine (pyStrip ['1']) = LineClass.pageNumber ∧
    cleanStep 0 ⟨[], 0, DiscardTracker.empty⟩ [' '] =
      { (⟨[], 0, DiscardTracker.empty⟩ : CleanState) with
        line_num := (⟨[], 0, DiscardTracker.empty⟩ : CleanState).line_num + 1 } :=
  ⟨(claim_C2.1 ['1'] (by decide)).1.mpr (by decide),
   claim_C2.2.1 0 ⟨[], 0, DiscardTracker.empty⟩ [' '] (by decide)⟩

theorem bibStep_fold_counts (pairs : List (Nat × List Char)) :
    ∀ tr : DiscardTracker,
      (pairs.foldl bibStep tr).references_sections_removed =
        tr.references_sections_removed ∧
      (pairs.foldl bibStep tr).bibliography_entries_removed =
        tr.bibliography_entries_removed +
          pairs.countP (fun il => isBibLine il.2) ∧
      (pairs.foldl bibStep tr).discarded_items.length =
        tr.discarded_items.length + pairs.countP (fun il => isBibLine il.2) := by
  induction pairs with
  | nil => intro tr; simp
  | cons il pairs ih =>
    intro tr
    rw [List.foldl_cons, List.countP_cons]
    obtain ⟨ih1, ih2, ih3⟩ := ih (bibStep tr il)
    by_cases h : isBibLine il.2
    · have e1 : (bibStep tr il).references_sections_removed =
          tr.references_sections_removed := by
        simp [bibStep, h, DiscardTracker.add_discard]
      have e2 : (bibStep tr il).bibliography_entries_removed =
          tr.bibliography_entries_removed + 1 := by
        simp [bibStep, h, DiscardTracker.add_discard]
      have e3 : (bibStep tr il).discarded_items.length =
          tr.discarded_items.length + 1 := by
        simp [bibStep, h, DiscardTracker.add_discard]
      refine ⟨by rw [ih1, e1], ?_, ?_⟩
      · rw [ih2, e2]; simp [h]; omega
      · rw [ih3, e3]; simp [h]; omega
    · have e : bibStep tr il = tr := by
        simp [bibStep, h]
      rw [e] at ih1 ih2 ih3 ⊢
      refine ⟨ih1, ?_, ?_⟩
      · rw [ih2]; simp [h]
      · rw [ih3]; simp [h]

theorem countP_enumFrom (ls : List (List Char)) :
    ∀ n : Nat, (List.enumFrom n ls).countP (fun il => isBibLine il.2) =
      ls.countP isBibLine := by
  induction ls with
  | nil => intro n; rfl
  | cons l ls ih =>
    intro n
    rw [List.enumFrom_cons, List.countP_cons, List.countP_cons, ih]

theorem remove_references_found (text : List Char) (tr : DiscardTracker)
    (k : Nat) (h : List.findIdx? isRefHeader (splitOnChar '\n' text) = some k) :
    (remove_references text tr).1 =
      joinLines ((splitOnChar '\n' text).take k) ∧
    (remove_references text tr).2.references_sections_removed =
      tr.references_sections_removed + 1 ∧
    (remove_references text tr).2.bibliography_entries_removed =
      tr.bibliography_entries_removed +
        ((splitOnChar '\n' text).drop (k + 1)).countP isBibLine ∧
    (remove_references text tr).2.discarded_items.length =
      tr.discarded_items.length + 1 +
        ((splitOnChar '\n' text).drop (k + 1)).countP isBibLine := by
  simp only [remove_references, h]
  set lines := splitOnChar '\n' text with hl
  set tracker1 := tr.add_discard .REFERENCES_SECTION (lines.getD k []) k 0
    ("References section header") with ht1
  obtain ⟨f1, f2, f3⟩ := bibStep_fold_counts
    (List.enumFrom (k + 1) (lines.drop (k + 1))) tracker1
  rw [countP_enumFrom] at f2 f3
  have t1refs : tracker1.references_sections_removed =
      tr.references_sections_removed + 1 := by
    simp [ht1, DiscardTracker.add_discard]
  have t1bib : tracker1.bibliography_entries_removed =
      tr.bibliography_entries_removed := by
    simp [ht1, DiscardTracker.add_discard]
  have t1len : tracker1.discarded_items.length =
      tr.discarded_items.length + 1 := by
    simp [ht1, DiscardTracker.add_discard]
  refine ⟨trivial, ?_, ?_, ?_⟩
  · rw [f1]; exact t1refs
  · rw [f2, t1bib]
  · rw [f3, t1len]

theorem remove_references_none (text : List Char) (tr : DiscardTracker)
    (h : List.findIdx? isRefHeader (splitOnChar '\n' text) = none) :
    remove_references text tr = (text, tr) := by
  simp only [remove_references, h]

/-- Claim C4: `remove_references` returns its input unchanged with an
unchanged tracker exactly when no line's stripped, lowercased content is
`references` or `bibliography`; when the first header is at line `k` it
returns the first `k` lines rejoined, logs one references-section record and
one bibliography-entry record per subsequent non-blank line not starting with
`'='`; and the documented scenario holds. -/
theorem claim_C4 :
    (∀ (text : List Char) (tr : DiscardTracker),
      remove_references text tr = (text, tr) ↔
        ∀ l ∈ splitOnChar '\n' text, isRefHeader l = false) ∧
    (∀ (text : List Char) (tr : DiscardTracker) (k : Nat),
      List.findIdx? isRefHeader (splitOnChar '\n' text) = some k →
      (remove_references text tr).1 =
        joinLines ((splitOnChar '\n' text).take k) ∧
      (remove_references text tr).2.references_sections_removed =
        tr.references_sections_removed + 1 ∧
      (remove_references text tr).2.bibliography_entries_removed =
        tr.bibliography_entries_removed +
          ((splitOnChar '\n' text).drop (k + 1)).countP isBibLine ∧
      (remove_references text tr).2.discarded_items.length =
        tr.discarded_items.length + 1 +
          ((splitOnChar '\n' text).drop (k + 1)).countP isBibLine) ∧
    (remove_references ("Intro\nContent\nReferences\n[1] A\n[2] B".toList)
        DiscardTracker.empty =
      (("Intro\nContent".toList),
       { DiscardTracker.empty with
         references_sections_removed := 1,
         bibliography_entries_removed := 2,
         total_lines_discarded := 3,
         discarded_items :=
           [⟨DiscardType.REFERENCES_SECTION, ("References".toList), 2, 0,
             "References section header"⟩,
            ⟨DiscardType.BIBLIOGRAPHY_ENTRY, ("[1] A".toList), 0, 3,
              "Bibliography/reference entry"⟩,
            ⟨DiscardType.BIBLIOGRAPHY_ENTRY, ("[2] B".toList), 0, 4,
              "Bibliography/reference entry"⟩] })) := by
  refine ⟨?_, remove_references_found, by decide⟩
  intro text tr
  constructor
  · intro h
    by_contra hex
    push_neg at hex
    obtain ⟨l, hmem, hl⟩ := hex
    have hsome : (List.findIdx? isRefHeader (splitOnChar '\n' text)).isSome := by
      rw [List.findIdx?_isSome]
      exact List.any_eq_true.mpr ⟨l, hmem, by simpa using hl⟩
    obtain ⟨k, hk⟩ := Option.isSome_iff_exists.mp hsome
    have := (remove_references_found text tr k hk).2.2.2
    rw [h] at this
    simp only [] at this
    omega
  · intro hall
    refine remove_references_none text tr ?_
    rw [List.findIdx?_eq_none_iff]
    intro l hmem
    simpa using hall l hmem

/-- Witness for C4: the scenario input has its header at line 2, and the part
before it is returned. -/
theorem claim_C4_witness :
    (remove_references ("Intro\nContent\nReferences\n[1] A\n[2] B".toList)
      DiscardTracker.empty).1 =
      joinLines ((splitOnChar '\n'
        ("Intro\nContent\nReferences\n[1] A\n[2] B".toList)).take 2) :=
  (claim_C4.2.1 ("Intro\nContent\nReferences\n[1] A\n[2] B".toList)
    DiscardTracker.empty 2 (by decide)).1

/-- Claim C8: the paragraph segmenter breaks at a line exactly when the
stripped line is non-empty and starts with a digit, a `'.'` occurs among the
raw line's first five characters, and content has already accumulated (so the
very first content line never breaks); on a break the accumulated lines are
flushed and the header seeds the next paragraph; candidates whose stripped
text is shorter than 20 characters are dropped with no state change; and the
whole segmenter never writes any discard record or counter — it only sets
`final_character_count`. -/
theorem claim_C8 :
    (∀ (ft : List Char) (bs : List Int) (ps : ParaState)
        (cur : List (List Char)) (line : List Char),
      pyStrip line ≠ [] → headIsDigit (pyStrip line) = true →
      '.' ∈ line.take 5 → cur ≠ [] →
      paraStep ft bs (ps, cur) line = (save_paragraph ft bs ps cur, [line])) ∧
    (∀ (ft : List Char) (bs : List Int) (ps : ParaState)
        (cur : List (List Char)) (line : List Char),
      ¬(pyStrip line ≠ [] ∧ headIsDigit (pyStrip line) = true ∧
        '.' ∈ line.take 5 ∧ cur ≠ []) →
      paraStep ft bs (ps, cur) line = (ps, cur ++ [line])) ∧
    (∀ (ft : List Char) (bs : List Int) (ps : ParaState) (line : List Char),
      paraStep ft bs (ps, []) line = (ps, [line])) ∧
    (∀ (ft : List Char) (bs : List Int) (st : ParaState)
        (para_lines : List (List Char)),
      (pyStrip (joinLines para_lines)).length < 20 →
      save_paragraph ft bs st para_lines = st) ∧
    (∀ (ft : List Char) (bs : List Int) (tr : DiscardTracker),
      discardState (extract_all_paragraphs ft bs tr).tracker = discardState tr ∧
      (extract_all_paragraphs ft bs tr).tracker.total_lines_processed =
        tr.total_lines_processed) := by
  refine ⟨?_, ?_, ?_, ?_, ?_⟩
  · intro ft bs ps cur line h1 h2 h3 h4
    have hh : isSectionHeader line cur = true := by
      simp [isSectionHeader]
      exact ⟨⟨⟨h1, h2⟩, h3⟩, h4⟩
    simp [paraStep, hh]
  · intro ft bs ps cur line h
    have hh : isSectionHeader line cur = false := by
      by_contra hc
      rw [Bool.not_eq_false] at hc
      simp [isSectionHeader] at hc
      exact h ⟨hc.1.1.1, hc.1.1.2, hc.1.2, hc.2⟩
    simp [paraStep, hh]
  · intro ft bs ps line
    have hh : isSectionHeader line [] = false := by
      simp [isSectionHeader]
    simp [paraStep, hh]
  · intro ft bs st para_lines h
    unfold save_paragraph
    rw [if_neg (by omega : ¬20 ≤ (pyStrip (joinLines para_lines)).length)]
  · intro ft bs tr
    exact ⟨rfl, rfl⟩

/-- Witness for C8: a concrete numbered-header line breaks, a short candidate
is dropped. -/
theorem claim_C8_witness :
    paraStep [] [] (⟨[], [], [], 0⟩, [("intro".toList)]) ("1. Results".toList) =
      (save_paragraph [] [] ⟨[], [], [], 0⟩ [("intro".toList)],
       [("1. Results".toList)]) ∧
    save_paragraph [] [] ⟨[], [], [], 0⟩ [("tiny".toList)] =
      (⟨[], [], [], 0⟩ : ParaState) :=
  ⟨claim_C8.1 [] [] ⟨[], [], [], 0⟩ [("intro".toList)] ("1. Results".toList)
      (by decide) (by decide) (by decide) (by decide),
   claim_C8.2.2.2.1 [] [] ⟨[], [], [], 0⟩ [("tiny".toList)] (by decide)⟩

theorem collapse_two (x y : Char) (rest : List Char) :
    collapseSpaces (x :: y :: rest) =
      if x = ' ' ∧ y = ' ' then collapseSpaces (y :: rest)
      else x :: collapseSpaces (y :: rest) := rfl

theorem collapse_cons_nonspace (a : Char) (s : List Char) (h : a ≠ ' ') :
    collapseSpaces (a :: s) = a :: collapseSpaces s := by
  cases s with
  | nil => rfl
  | cons b r =>
    rw [collapse_two]
    rw [if_neg (fun hc => h hc.1)]

theorem head?_collapse (s : List Char) :
    (collapseSpaces s).head? = s.head? := by
  induction s with
  | nil => rfl
  | cons a s ih =>
    cases s with
    | nil => rfl
    | cons b r =>
      by_cases hab : a = ' ' ∧ b = ' '
      · rw [collapse_two, if_pos hab, ih]
        simp [hab.1, hab.2]
      · rw [collapse_two, if_neg hab]
        rfl

theorem collapse_ne_nil (s : List Char) (h : s ≠ []) :
    collapseSpaces s ≠ [] := by
  intro hc
  have := head?_collapse s
  rw [hc] at this
  cases s with
  | nil => exact h rfl
  | cons a r => simp at this

theorem mem_of_mem_collapse (a : Char) (s : List Char)
    (h : a ∈ collapseSpaces s) : a ∈ s := by
  induction s with
  | nil => simp [collapseSpaces] at h
  | cons x s ih =>
    cases s with
    | nil => simpa [collapseSpaces] using h
    | cons b r =>
      by_cases hab : x = ' ' ∧ b = ' '
      · rw [collapse_two, if_pos hab] at h
        exact List.mem_cons_of_mem x (ih h)
      · rw [collapse_two, if_neg hab] at h
        rcases List.mem_cons.mp h with h1 | h1
        · exact h1 ▸ List.mem_cons_self x (b :: r)
        · exact List.mem_cons_of_mem x (ih h1)

theorem mem_collapse_or_space (a : Char) (s : List Char) (h : a ∈ s) :
    a ∈ collapseSpaces s ∨ a = ' ' := by
  induction s with
  | nil => simp at h
  | cons x s ih =>
    cases s with
    | nil =>
      simp at h
      left
      simp [collapseSpaces, h]
    | cons b r =>
      by_cases hab : x = ' ' ∧ b = ' '
      · rw [collapse_two, if_pos hab]
        rcases List.mem_cons.mp h with h1 | h1
        · right; rw [h1, hab.1]
        · exact ih h1
      · rw [collapse_two, if_neg hab]
        rcases List.mem_cons.mp h with h1 | h1
        · left; exact h1 ▸ List.mem_cons_self x _
        · rcases ih h1 with h2 | h2
          · left; exact List.mem_cons_of_mem x h2
          · right; exact h2

theorem space_mem_collapse (s : List Char) (h : ' ' ∈ s) :
    ' ' ∈ collapseSpaces s := by
  induction s with
  | nil => simp at h
  | cons x s ih =>
    cases s with
    | nil =>
      simp at h
      simp only [collapseSpaces]
      simpa using h
    | cons b r =>
      by_cases hab : x = ' ' ∧ b = ' '
      · rw [collapse_two, if_pos hab]
        exact ih (by simp [hab.2])
      · rw [collapse_two, if_neg hab]
        rcases List.mem_cons.mp h with h1 | h1
        · exact h1 ▸ List.mem_cons_self x _
        · exact List.mem_cons_of_mem x (ih h1)

theorem collapse_of_no_space (s : List Char) (h : ' ' ∉ s) :
    collapseSpaces s = s := by
  induction s with
  | nil => rfl
  | cons x s ih =>
    have hx : x ≠ ' ' := fun hc => h (hc ▸ List.mem_cons_self x s)
    rw [collapse_cons_nonspace x s hx,
      ih (fun hc => h (List.mem_cons_of_mem x hc))]

theorem length_collapse_le (s : List Char) :
    (collapseSpaces s).length ≤ s.length := by
  induction s with
  | nil => simp [collapseSpaces]
  | cons x s ih =>
    cases s with
    | nil => simp [collapseSpaces]
    | cons b r =>
      by_cases hab : x = ' ' ∧ b = ' '
      · rw [collapse_two, if_pos hab]
        calc (collapseSpaces (b :: r)).length ≤ (b :: r).length := ih
          _ ≤ (x :: b :: r).length := by simp
      · rw [collapse_two, if_neg hab]
        simpa using ih

theorem collapse_append_singleton (a : Char) (h : a ≠ ' ') :
    ∀ xs : List Char, collapseSpaces (xs ++ [a]) = collapseSpaces xs ++ [a] := by
  intro xs
  induction xs with
  | nil => rfl
  | cons x xs ih =>
    cases xs with
    | nil =>
      show collapseSpaces (x :: [a]) = collapseSpaces [x] ++ [a]
      rw [collapse_two, if_neg (fun hc => h hc.2)]
      rfl
    | cons y ys =>
      have e : (x :: y :: ys) ++ [a] = x :: y :: (ys ++ [a]) := rfl
      rw [e, collapse_two x y (ys ++ [a]), collapse_two x y ys]
      have ih' : collapseSpaces (y :: (ys ++ [a])) = collapseSpaces (y :: ys) ++ [a] := by
        simpa using ih
      by_cases hxy : x = ' ' ∧ y = ' '
      · rw [if_pos hxy, if_pos hxy, ih']
      · rw [if_neg hxy, if_neg hxy, ih']
        rfl

theorem collapse_append_cons (a : Char) (h : a ≠ ' ') :
    ∀ (ys xs : List Char),
      collapseSpaces (xs ++ a :: ys) =
        collapseSpaces (xs ++ [a]) ++ collapseSpaces ys := by
  intro ys xs
  induction xs with
  | nil =>
    simp only [List.nil_append]
    rw [collapse_cons_nonspace a ys h]
    rfl
  | cons x xs ih =>
    cases xs with
    | nil =>
      show collapseSpaces (x :: a :: ys) =
        collapseSpaces (x :: [a]) ++ collapseSpaces ys
      rw [collapse_two x a ys, collapse_two x a []]
      rw [if_neg (fun hc => h hc.2), if_neg (fun hc => h hc.2)]
      rw [collapse_cons_nonspace a ys h]
      rfl
    | cons y ys' =>
      have e1 : (x :: y :: ys') ++ a :: ys = x :: y :: (ys' ++ a :: ys) := rfl
      have e2 : (x :: y :: ys') ++ [a] = x :: y :: (ys' ++ [a]) := rfl
      rw [e1, e2, collapse_two x y (ys' ++ a :: ys), collapse_two x y (ys' ++ [a])]
      have ih' : collapseSpaces (y :: (ys' ++ a :: ys)) =
          collapseSpaces (y :: (ys' ++ [a])) ++ collapseSpaces ys := by
        simpa using ih
      by_cases hxy : x = ' ' ∧ y = ' '
      · rw [if_pos hxy, if_pos hxy, ih']
      · rw [if_neg hxy, if_neg hxy, ih']
        rfl

theorem takeWhile_collapse (p : Char → Bool) (hp : p ' ' = false) :
    ∀ s : List Char, (collapseSpaces s).takeWhile p = s.takeWhile p := by
  intro s
  induction s with
  | nil => rfl
  | cons x s ih =>
    cases s with
    | nil => rfl
    | cons b r =>
      by_cases hab : x = ' ' ∧ b = ' '
      · have hx : p x = false := hab.1 ▸ hp
        have hb : p b = false := hab.2 ▸ hp
        rw [collapse_two, if_pos hab, ih]
        rw [List.takeWhile_cons_of_neg (by simp [hb]),
          List.takeWhile_cons_of_neg (by simp [hx])]
      · rw [collapse_two, if_neg hab]
        by_cases hx : p x = true
        · rw [List.takeWhile_cons_of_pos hx, List.takeWhile_cons_of_pos hx, ih]
        · rw [List.takeWhile_cons_of_neg hx, List.takeWhile_cons_of_neg hx]

theorem dropWhile_collapse (p : Char → Bool) (hp : p ' ' = false) :
    ∀ s : List Char,
      (collapseSpaces s).dropWhile p = collapseSpaces (s.dropWhile p) := by
  intro s
  induction s with
  | nil => rfl
  | cons x s ih =>
    cases s with
    | nil =>
      by_cases hx : p x = true
      · simp [collapseSpaces, List.dropWhile_cons_of_pos hx]
      · simp [collapseSpaces, List.dropWhile_cons_of_neg hx]
    | cons b r =>
      by_cases hab : x = ' ' ∧ b = ' '
      · have hx : p x = false := hab.1 ▸ hp
        have hb : p b = false := hab.2 ▸ hp
        rw [collapse_two, if_pos hab, ih]
        rw [List.dropWhile_cons_of_neg (by simp [hb]),
          List.dropWhile_cons_of_neg (by simp [hx])]
        rw [collapse_two, if_pos hab]
      · rw [collapse_two, if_neg hab]
        by_cases hx : p x = true
        · rw [List.dropWhile_cons_of_pos hx, List.dropWhile_cons_of_pos hx, ih]
        · rw [List.dropWhile_cons_of_neg hx, List.dropWhile_cons_of_neg hx]
          rw [collapse_two, if_neg hab]

theorem dropWhile_ws_collapse :
    ∀ s : List Char,
      (collapseSpaces s).dropWhile pyIsSpace =
        collapseSpaces (s.dropWhile pyIsSpace) := by
  intro s
  induction s with
  | nil => rfl
  | cons x s ih =>
    cases s with
    | nil =>
      by_cases hx : pyIsSpace x = true
      · simp [collapseSpaces, List.dropWhile_cons_of_pos hx]
      · simp [collapseSpaces, List.dropWhile_cons_of_neg hx]
    | cons b r =>
      by_cases hab : x = ' ' ∧ b = ' '
      · have hx : pyIsSpace x = true := by rw [hab.1]; rfl
        have hb : pyIsSpace b = true := by rw [hab.2]; rfl
        rw [collapse_two, if_pos hab, ih]
        rw [List.dropWhile_cons_of_pos hx, List.dropWhile_cons_of_pos hb]
      · rw [collapse_two, if_neg hab]
        by_cases hx : pyIsSpace x = true
        · rw [List.dropWhile_cons_of_pos hx, List.dropWhile_cons_of_pos hx, ih]
        · rw [List.dropWhile_cons_of_neg hx, List.dropWhile_cons_of_neg hx]
          rw [collapse_two, if_neg hab]

theorem collapse_cons_inv (s : List Char) (a : Char) (rest : List Char)
    (h : collapseSpaces s = a :: rest) (ha : a ≠ ' ') :
    ∃ s', s = a :: s' ∧ collapseSpaces s' = rest := by
  cases s with
  | nil => simp [collapseSpaces] at h
  | cons x s' =>
    cases s' with
    | nil =>
      simp only [collapseSpaces] at h
      injection h with h1 h2
      exact ⟨[], by rw [h1], by rw [← h2]; rfl⟩
    | cons b r =>
      by_cases hab : x = ' ' ∧ b = ' '
      · exfalso
        rw [collapse_two, if_pos hab] at h
        have hh := head?_collapse (b :: r)
        rw [h] at hh
        simp only [List.head?_cons, Option.some.injEq] at hh
        exact ha (by rw [hh, hab.2])
      · rw [collapse_two, if_neg hab] at h
        injection h with h1 h2
        exact ⟨b :: r, by rw [h1], h2⟩

theorem dropWhile_head_false (p : Char → Bool) (l : List Char) (a : Char)
    (r : List Char) (h : l.dropWhile p = a :: r) : p a = false := by
  induction l with
  | nil => simp at h
  | cons x xs ih =>
    by_cases hx : p x = true
    · rw [List.dropWhile_cons_of_pos hx] at h
      exact ih h
    · rw [List.dropWhile_cons_of_neg hx] at h
      injection h with h1 _
      rw [← h1]
      exact Bool.not_eq_true _ |>.mp hx

theorem rdropWs_append_allws (xs w : List Char)
    (hw : ∀ x ∈ w, pyIsSpace x = true) : rdropWs (xs ++ w) = rdropWs xs := by
  unfold rdropWs
  rw [List.reverse_append, List.dropWhile_append]
  rw [List.dropWhile_eq_nil_iff.mpr (fun x hx => hw x (by
    simpa using List.mem_reverse.mp hx))]
  simp

theorem rdropWs_concat_nonws (xs : List Char) (z : Char)
    (hz : pyIsSpace z = false) : rdropWs (xs ++ [z]) = xs ++ [z] := by
  unfold rdropWs
  rw [List.reverse_append]
  simp only [List.reverse_cons, List.reverse_nil, List.nil_append,
    List.singleton_append]
  rw [List.dropWhile_cons_of_neg (by simp [hz])]
  simp

theorem rdropWs_allws (l : List Char) (hl : ∀ x ∈ l, pyIsSpace x = true) :
    rdropWs l = [] := by
  unfold rdropWs
  rw [List.dropWhile_eq_nil_iff.mpr (fun x hx => hl x (List.mem_reverse.mp hx))]
  rfl

theorem rdropWs_decomp (m : List Char) :
    ∃ w, (∀ x ∈ w, pyIsSpace x = true) ∧ m = rdropWs m ++ w := by
  refine ⟨(m.reverse.takeWhile pyIsSpace).reverse, ?_, ?_⟩
  · intro x hx
    exact List.mem_takeWhile_imp (List.mem_reverse.mp hx)
  · unfold rdropWs
    rw [← List.reverse_append, List.takeWhile_append_dropWhile,
      List.reverse_reverse]

theorem rdropWs_last (m : List Char) (h : rdropWs m ≠ []) :
    ∃ t0 z, rdropWs m = t0 ++ [z] ∧ pyIsSpace z = false := by
  rcases hd : m.reverse.dropWhile pyIsSpace with _ | ⟨a, rest⟩
  · exfalso
    apply h
    unfold rdropWs
    rw [hd]
    rfl
  · refine ⟨rest.reverse, a, ?_, dropWhile_head_false pyIsSpace m.reverse a rest hd⟩
    unfold rdropWs
    rw [hd, List.reverse_cons]

theorem rdropWs_collapse (m : List Char) :
    rdropWs (collapseSpaces m) = collapseSpaces (rdropWs m) := by
  obtain ⟨w, hw, hm⟩ := rdropWs_decomp m
  rcases ht : rdropWs m with _ | ⟨x, t'⟩
  · rw [ht] at hm
    simp only [List.nil_append] at hm
    have hall : ∀ x ∈ collapseSpaces m, pyIsSpace x = true := by
      intro x hx
      exact (hm ▸ hw) x (mem_of_mem_collapse x m hx)
    rw [rdropWs_allws _ hall]
    rfl
  · obtain ⟨t0, z, htz, hzws⟩ := rdropWs_last m (by rw [ht]; simp)
    rw [ht] at htz
    have hz : z ≠ ' ' := fun hc => by
      rw [hc] at hzws
      exact absurd hzws (by simp [pyIsSpace])
    rw [ht] at hm
    rw [htz] at hm ⊢
    have hm' : m = t0 ++ z :: w := by
      rw [hm, List.append_assoc]
      rfl
    rw [hm', collapse_append_cons z hz w t0,
      collapse_append_singleton z hz t0]
    have hcw : ∀ x ∈ collapseSpaces w, pyIsSpace x = true :=
      fun x hx => hw x (mem_of_mem_collapse x w hx)
    rw [rdropWs_append_allws _ _ hcw]
    exact rdropWs_concat_nonws _ _ hzws

theorem pyStrip_collapse (l : List Char) :
    pyStrip (collapseSpaces l) = collapseSpaces (pyStrip l) := by
  unfold pyStrip
  rw [dropWhile_ws_collapse, rdropWs_collapse]

theorem pyStrip_head_false (l : List Char) (a : Char) (rest : List Char)
    (h : pyStrip l = a :: rest) : pyIsSpace a = false := by
  unfold pyStrip at h
  obtain ⟨w, _, hm⟩ := rdropWs_decomp (l.dropWhile pyIsSpace)
  rw [h] at hm
  exact dropWhile_head_false pyIsSpace l a (rest ++ w)
    (by rw [hm]; rfl)

theorem pyStrip_last (l : List Char) (h : pyStrip l ≠ []) :
    ∃ t0 z, pyStrip l = t0 ++ [z] ∧ pyIsSpace z = false :=
  rdropWs_last (l.dropWhile pyIsSpace) h

theorem headIsDigit_head? (l : List Char) :
    headIsDigit l = match l.head? with
      | some a => a.isDigit
      | none => false := by
  cases l <;> rfl

theorem headIsDigit_collapse (u : List Char) :
    headIsDigit (collapseSpaces u) = headIsDigit u := by
  rw [headIsDigit_head?, headIsDigit_head?, head?_collapse]

theorem takeWhile_nonempty_head (p : Char → Bool) (l : List Char) :
    (l.takeWhile p).isEmpty = false ↔ ∃ a t, l = a :: t ∧ p a = true := by
  cases l with
  | nil => simp
  | cons a t =>
    by_cases hp : p a = true
    · rw [List.takeWhile_cons_of_pos hp]
      simp [hp]
    · rw [List.takeWhile_cons_of_neg hp]
      constructor
      · intro hfalse
        simp at hfalse
      · rintro ⟨a', t', he, hp'⟩
        injection he with h1 _
        rw [h1] at hp
        exact (hp hp').elim

theorem isPageNum_collapse (s : List Char)
    (h : isPageNum (collapseSpaces s) = true) : isPageNum s = true := by
  have hns : ' ' ∉ collapseSpaces s := by
    intro hmem
    simp only [isPageNum, Bool.and_eq_true, List.all_eq_true] at h
    exact absurd (h.2 ' ' hmem) (by decide)
  have hs : ' ' ∉ s := fun hm => hns (space_mem_collapse s hm)
  rw [← collapse_of_no_space s hs]
  exact h

theorem isSep_collapse (s : List Char)
    (h : isSep (collapseSpaces s) = true) : isSep s = true := by
  simp only [isSep, Bool.and_eq_true, List.all_eq_true, decide_eq_true_eq] at h ⊢
  obtain ⟨hlen, hall⟩ := h
  constructor
  · exact le_trans hlen (length_collapse_le s)
  · intro c hc
    rcases mem_collapse_or_space c s hc with hm | hm
    · exact hall c hm
    · rw [hm]
      decide

theorem arxivTail_collapse (u : List Char)
    (h : arxivTail (collapseSpaces u) = true) : arxivTail u = true := by
  simp only [arxivTail, Bool.and_eq_true] at h ⊢
  obtain ⟨h1, h2⟩ := h
  have hd : Char.isDigit ' ' = false := by decide
  rw [takeWhile_collapse Char.isDigit hd] at h1
  refine ⟨h1, ?_⟩
  rw [dropWhile_collapse Char.isDigit hd] at h2
  rcases hdc : collapseSpaces (u.dropWhile Char.isDigit) with _ | ⟨c, r2⟩
  · rw [hdc] at h2
    simp at h2
  · rw [hdc] at h2
    simp only [Bool.and_eq_true, decide_eq_true_eq] at h2
    obtain ⟨hc, hr2⟩ := h2
    rw [hc] at hdc
    obtain ⟨r2', hr2', hcr2⟩ := collapse_cons_inv _ '.' _ hdc (by decide)
    rw [hr2']
    simp only [Bool.and_eq_true, decide_eq_true_eq]
    refine ⟨trivial, ?_⟩
    rw [← hcr2, headIsDigit_collapse] at hr2
    exact hr2

theorem isArxiv_collapse (s : List Char)
    (h : isArxiv (collapseSpaces s) = true) : isArxiv s = true := by
  rcases hc : collapseSpaces s with _ | ⟨c1, _ | ⟨c2, _ | ⟨c3, _ | ⟨c4,
    _ | ⟨c5, _ | ⟨c6, rest⟩⟩⟩⟩⟩⟩ <;> rw [hc] at h <;>
    try simp [isArxiv] at h
  obtain ⟨⟨⟨⟨⟨⟨e1, e2⟩, e3⟩, e4⟩, e5⟩, e6⟩, htail⟩ := h
  subst e1; subst e2; subst e3; subst e4; subst e5; subst e6
  obtain ⟨s1, hs1, hc1⟩ := collapse_cons_inv _ 'a' _ hc (by decide)
  obtain ⟨s2, hs2, hc2⟩ := collapse_cons_inv _ 'r' _ hc1 (by decide)
  obtain ⟨s3, hs3, hc3⟩ := collapse_cons_inv _ 'X' _ hc2 (by decide)
  obtain ⟨s4, hs4, hc4⟩ := collapse_cons_inv _ 'i' _ hc3 (by decide)
  obtain ⟨s5, hs5, hc5⟩ := collapse_cons_inv _ 'v' _ hc4 (by decide)
  obtain ⟨s6, hs6, hc6⟩ := collapse_cons_inv _ ':' _ hc5 (by decide)
  rw [hs1, hs2, hs3, hs4, hs5, hs6]
  have htail2 : arxivTail s6 = true :=
    arxivTail_collapse s6 (by rw [hc6]; exact htail)
  simp [isArxiv, htail2]

theorem takeWhile_isEmpty_head? (p : Char → Bool) (l : List Char) :
    (l.takeWhile p).isEmpty = match l.head? with
      | some a => !p a
      | none => true := by
  cases l with
  | nil => rfl
  | cons a t =>
    by_cases hp : p a = true
    · rw [List.takeWhile_cons_of_pos hp]
      simp [hp]
    · rw [List.takeWhile_cons_of_neg hp]
      rw [Bool.not_eq_true] at hp
      simp [hp]

theorem takeWhile_isEmpty_collapse (p : Char → Bool) (u : List Char) :
    ((collapseSpaces u).takeWhile p).isEmpty = (u.takeWhile p).isEmpty := by
  rw [takeWhile_isEmpty_head?, takeWhile_isEmpty_head?, head?_collapse]

theorem monthOK_space (y z : Char) :
    monthOK ' ' y z = false ∧ monthOK y ' ' z = false ∧
      monthOK y z ' ' = false := by
  refine ⟨?_, ?_, ?_⟩ <;> simp [monthOK]

theorem isDate_collapse (s : List Char)
    (h : isDate (collapseSpaces s) = true) : isDate s = true := by
  have hd : Char.isDigit ' ' = false := by decide
  simp only [isDate, Bool.and_eq_true, Bool.not_eq_true'] at h ⊢
  obtain ⟨⟨h1, h2⟩, h3⟩ := h
  rw [takeWhile_isEmpty_collapse] at h1
  rw [dropWhile_collapse Char.isDigit hd] at h2 h3
  rw [takeWhile_isEmpty_collapse] at h2
  refine ⟨⟨h1, h2⟩, ?_⟩
  rw [dropWhile_ws_collapse] at h3
  rcases hq : collapseSpaces ((s.dropWhile Char.isDigit).dropWhile pyIsSpace)
    with _ | ⟨a, _ | ⟨b, _ | ⟨c, r3C⟩⟩⟩ <;> rw [hq] at h3
  · simp at h3
  · simp at h3
  · simp at h3
  · simp only [Bool.and_eq_true, Bool.not_eq_true', decide_eq_true_eq] at h3
    obtain ⟨hmonth, ⟨hw2, hlen4⟩, halldig⟩ := h3
    have ha : a ≠ ' ' := by
      intro hc
      rw [hc] at hmonth
      rw [show (' ' : Char).toLower = ' ' from by decide] at hmonth
      exact absurd hmonth (by simp [(monthOK_space _ _).1])
    have hb : b ≠ ' ' := by
      intro hc
      rw [hc] at hmonth
      rw [show (' ' : Char).toLower = ' ' from by decide] at hmonth
      exact absurd hmonth (by simp [(monthOK_space _ _).2.1])
    have hcc : c ≠ ' ' := by
      intro hc
      rw [hc] at hmonth
      rw [show (' ' : Char).toLower = ' ' from by decide] at hmonth
      exact absurd hmonth (by simp [(monthOK_space _ _).2.2])
    obtain ⟨u1, hu1, hq1⟩ := collapse_cons_inv _ a _ hq ha
    obtain ⟨u2, hu2, hq2⟩ := collapse_cons_inv _ b _ hq1 hb
    obtain ⟨r3, hu3, hq3⟩ := collapse_cons_inv _ c _ hq2 hcc
    rw [hu1, hu2, hu3]
    simp only [Bool.and_eq_true, Bool.not_eq_true', decide_eq_true_eq]
    refine ⟨hmonth, ⟨?_, ?_⟩, ?_⟩
    · rw [← hq3, takeWhile_isEmpty_collapse] at hw2
      exact hw2
    · rw [← hq3, dropWhile_ws_collapse] at hlen4
      have hnospace : ' ' ∉ collapseSpaces (r3.dropWhile pyIsSpace) := by
        intro hmem
        rw [← hq3, dropWhile_ws_collapse] at halldig
        rw [List.all_eq_true] at halldig
        exact absurd (halldig ' ' hmem) (by decide)
      have : ' ' ∉ r3.dropWhile pyIsSpace :=
        fun hm => hnospace (space_mem_collapse _ hm)
      rw [collapse_of_no_space _ this] at hlen4
      exact hlen4
    · rw [← hq3, dropWhile_ws_collapse] at halldig
      have hnospace : ' ' ∉ collapseSpaces (r3.dropWhile pyIsSpace) := by
        intro hmem
        rw [List.all_eq_true] at halldig
        exact absurd (halldig ' ' hmem) (by decide)
      have : ' ' ∉ r3.dropWhile pyIsSpace :=
        fun hm => hnospace (space_mem_collapse _ hm)
      rw [collapse_of_no_space _ this] at halldig
      exact halldig

theorem classify_keep_iff (s : List Char) :
    classifyLine s = .keep ↔
      (isPageNum s = false ∧ isArxiv s = false ∧ isDate s = false ∧
       isSep s = false ∧ ¬s.length < 3) := by
  unfold classifyLine
  split_ifs with h1 h2 h3 h4 h5 <;> simp_all

theorem collapse_stripped_eq_of_short (s : List Char)
    (hhead : s.head? ≠ some ' ')
    (hlast : ∃ t0 z, s = t0 ++ [z] ∧ pyIsSpace z = false)
    (hlen : (collapseSpaces s).length < 3) :
    collapseSpaces s = s := by
  obtain ⟨t0, z, hsz, hzws⟩ := hlast
  have hz : z ≠ ' ' := by
    intro hc
    rw [hc] at hzws
    exact absurd hzws (by decide)
  have hcs : collapseSpaces s = collapseSpaces t0 ++ [z] := by
    rw [hsz]
    exact collapse_append_singleton z hz t0
  have hns : ' ' ∉ collapseSpaces s := by
    intro hmem
    rcases hct : collapseSpaces t0 with _ | ⟨x, xs⟩
    · rw [hct, List.nil_append] at hcs
      rw [hcs] at hmem
      simp at hmem
      exact hz hmem.symm
    · rw [hct] at hcs
      have hx : x ≠ ' ' := by
        have hh := head?_collapse s
        rw [hcs] at hh
        simp only [List.cons_append, List.head?_cons] at hh
        intro hc
        rw [hc] at hh
        exact hhead hh.symm
      have hxs : xs = [] := by
        rw [hcs] at hlen
        simp only [List.cons_append, List.length_cons, List.length_append,
          List.length_cons, List.length_nil] at hlen
        cases xs with
        | nil => rfl
        | cons y ys => simp at hlen; omega
      rw [hxs] at hcs
      rw [hcs] at hmem
      simp at hmem
      rcases hmem with hm | hm
      · exact hx hm.symm
      · exact hz hm.symm
  have hnss : ' ' ∉ s := fun hm => hns (space_mem_collapse s hm)
  exact collapse_of_no_space s hnss

theorem classify_collapse_keep (l : List Char) (hne : pyStrip l ≠ [])
    (hk : classifyLine (pyStrip l) = .keep) :
    classifyLine (collapseSpaces (pyStrip l)) = .keep := by
  obtain ⟨hp1, hp2, hp3, hp4, hlen⟩ := (classify_keep_iff (pyStrip l)).mp hk
  apply (classify_keep_iff (collapseSpaces (pyStrip l))).mpr
  refine ⟨?_, ?_, ?_, ?_, ?_⟩
  · refine Bool.eq_false_iff.mpr (fun hh => ?_)
    have := isPageNum_collapse (pyStrip l) hh
    rw [hp1] at this
    simp at this
  · refine Bool.eq_false_iff.mpr (fun hh => ?_)
    have := isArxiv_collapse (pyStrip l) hh
    rw [hp2] at this
    simp at this
  · refine Bool.eq_false_iff.mpr (fun hh => ?_)
    have := isDate_collapse (pyStrip l) hh
    rw [hp3] at this
    simp at this
  · refine Bool.eq_false_iff.mpr (fun hh => ?_)
    have := isSep_collapse (pyStrip l) hh
    rw [hp4] at this
    simp at this
  · intro hlt
    have hhead : (pyStrip l).head? ≠ some ' ' := by
      rcases hps : pyStrip l with _ | ⟨a, rest⟩
      · simp
      · have := pyStrip_head_false l a rest hps
        simp only [List.head?_cons, ne_eq, Option.some.injEq]
        intro hc
        rw [hc] at this
        exact absurd this (by decide)
    have := collapse_stripped_eq_of_short (pyStrip l) hhead
      (pyStrip_last l hne) hlt
    rw [this] at hlt
    exact hlen hlt

theorem splitOnChar_cons_eq (sep c : Char) (rest : List Char)
    (h : List Char) (t : List (List Char))
    (hr : splitOnChar sep rest = h :: t) :
    splitOnChar sep (c :: rest) =
      if c = sep then [] :: h :: t else (c :: h) :: t := by
  simp only [splitOnChar, hr]

theorem splitOnChar_ne_nil (sep : Char) (s : List Char) :
    splitOnChar sep s ≠ [] := by
  induction s with
  | nil => simp [splitOnChar]
  | cons c rest ih =>
    rcases hr : splitOnChar sep rest with _ | ⟨h, t⟩
    · exact absurd hr ih
    · rw [splitOnChar_cons_eq sep c rest h t hr]
      by_cases hc : c = sep <;> simp [hc]

theorem not_mem_of_mem_splitOnChar (sep : Char) (s : List Char) :
    ∀ l ∈ splitOnChar sep s, sep ∉ l := by
  induction s with
  | nil =>
    intro l hl
    simp [splitOnChar] at hl
    simp [hl]
  | cons c rest ih =>
    intro l hl
    rcases hr : splitOnChar sep rest with _ | ⟨h, t⟩
    · exact absurd hr (splitOnChar_ne_nil sep rest)
    · rw [splitOnChar_cons_eq sep c rest h t hr] at hl
      by_cases hc : c = sep
      · rw [if_pos hc] at hl
        rcases List.mem_cons.mp hl with h1 | h1
        · rw [h1]; simp
        · exact ih l (hr ▸ h1)
      · rw [if_neg hc] at hl
        rcases List.mem_cons.mp hl with h1 | h1
        · rw [h1]
          intro hmem
          rcases List.mem_cons.mp hmem with h2 | h2
          · exact hc h2.symm
          · exact ih h (by rw [hr]; exact List.mem_cons_self h t) h2
        · exact ih l (by rw [hr]; exact List.mem_cons_of_mem h h1)

theorem splitOnChar_no_sep (sep : Char) (l : List Char) (h : sep ∉ l) :
    splitOnChar sep l = [l] := by
  induction l with
  | nil => rfl
  | cons c rest ih =>
    have hc : c ≠ sep := fun hc => h (hc ▸ List.mem_cons_self c rest)
    have hr : sep ∉ rest := fun hm => h (List.mem_cons_of_mem c hm)
    rw [splitOnChar_cons_eq sep c rest rest [] (ih hr)]
    rw [if_neg hc]

theorem splitOnChar_append_sep (sep : Char) (l rest : List Char) (h : sep ∉ l) :
    splitOnChar sep (l ++ sep :: rest) = l :: splitOnChar sep rest := by
  induction l with
  | nil =>
    rcases hr : splitOnChar sep rest with _ | ⟨hh, t⟩
    · exact absurd hr (splitOnChar_ne_nil sep rest)
    · rw [List.nil_append, splitOnChar_cons_eq sep sep rest hh t hr]
      rw [if_pos rfl]
  | cons c l' ih =>
    have hc : c ≠ sep := fun hc => h (hc ▸ List.mem_cons_self c l')
    have hl' : sep ∉ l' := fun hm => h (List.mem_cons_of_mem c hm)
    rw [List.cons_append]
    rcases hr : splitOnChar sep (l' ++ sep :: rest) with _ | ⟨hh, t⟩
    · exact absurd hr (splitOnChar_ne_nil sep _)
    · rw [splitOnChar_cons_eq sep c _ hh t hr, if_neg hc]
      rw [ih hl'] at hr
      injection hr with h1 h2
      rw [h1, h2]

theorem splitOnChar_joinLines (ls : List (List Char)) (hne : ls ≠ [])
    (h : ∀ l ∈ ls, '\n' ∉ l) :
    splitOnChar '\n' (joinLines ls) = ls := by
  induction ls with
  | nil => exact absurd rfl hne
  | cons l ls ih =>
    cases ls with
    | nil =>
      simp only [joinLines]
      exact splitOnChar_no_sep '\n' l (h l (List.mem_cons_self l []))
    | cons m ms =>
      rw [show joinLines (l :: m :: ms) = l ++ '\n' :: joinLines (m :: ms)
        from rfl]
      rw [splitOnChar_append_sep '\n' l _ (h l (List.mem_cons_self l _))]
      rw [ih (by simp) (fun x hx => h x (List.mem_cons_of_mem l hx))]

theorem collapse_joinLines (ls : List (List Char)) :
    collapseSpaces (joinLines ls) = joinLines (ls.map collapseSpaces) := by
  induction ls with
  | nil => rfl
  | cons l ls ih =>
    cases ls with
    | nil => rfl
    | cons m ms =>
      rw [show joinLines (l :: m :: ms) = l ++ '\n' :: joinLines (m :: ms)
        from rfl]
      rw [collapse_append_cons '\n' (by decide) _ l]
      rw [collapse_append_singleton '\n' (by decide) l]
      rw [ih]
      rw [show (l :: m :: ms).map collapseSpaces =
        collapseSpaces l :: (m :: ms).map collapseSpaces from rfl]
      rw [show joinLines (collapseSpaces l :: (m :: ms).map collapseSpaces) =
        collapseSpaces l ++ '\n' :: joinLines ((m :: ms).map collapseSpaces)
        from by cases ms <;> rfl]
      simp

theorem keptLine_iff (l : List Char) :
    keptLine l = true ↔ pyStrip l ≠ [] ∧ classifyLine (pyStrip l) = .keep := by
  simp [keptLine]

theorem cleanStep_cleaned (p : Nat) (st : CleanState) (l : List Char) :
    (cleanStep p st l).cleaned_lines =
      st.cleaned_lines ++ (if keptLine l then [l] else []) := by
  by_cases hb : (pyStrip l).isEmpty
  · have hk : keptLine l = false := by
      simp [keptLine, hb]
    simp [cleanStep, hb, hk]
  · rcases hcl : classifyLine (pyStrip l) with _ | _ | _ | _ | _ <;>
      simp [cleanStep, hb, hcl, keptLine]

theorem cleanStep_tracker_silent (p : Nat) (st : CleanState) (l : List Char)
    (h : pyStrip l = [] ∨ classifyLine (pyStrip l) = .keep) :
    discardState (cleanStep p st l).tracker = discardState st.tracker := by
  rcases h with hb | hk
  · have : (pyStrip l).isEmpty = true := by simp [hb]
    simp [cleanStep, this]
  · by_cases hb : (pyStrip l).isEmpty
    · simp [cleanStep, hb]
    · simp [cleanStep, hb, hk, discardState]

theorem foldl_cleanStep_cleaned (p : Nat) (lines : List (List Char)) :
    ∀ st : CleanState,
      (lines.foldl (cleanStep p) st).cleaned_lines =
        st.cleaned_lines ++ lines.filter keptLine := by
  induction lines with
  | nil => intro st; simp
  | cons l lines ih =>
    intro st
    rw [List.foldl_cons, ih, cleanStep_cleaned]
    by_cases hk : keptLine l <;> simp [hk, List.filter_cons]

theorem foldl_cleanStep_silent (p : Nat) (lines : List (List Char))
    (h : ∀ l ∈ lines, pyStrip l = [] ∨ classifyLine (pyStrip l) = .keep) :
    ∀ st : CleanState,
      discardState ((lines.foldl (cleanStep p) st).tracker) =
        discardState st.tracker := by
  induction lines with
  | nil => intro st; rfl
  | cons l lines ih =>
    intro st
    rw [List.foldl_cons]
    rw [ih (fun x hx => h x (List.mem_cons_of_mem l hx))]
    exact cleanStep_tracker_silent p st l (h l (List.mem_cons_self l lines))

theorem clean_page_text_fst (text : List Char) (p : Nat) (tr : DiscardTracker) :
    (clean_page_text text p tr).1 =
      collapseSpaces (joinLines ((splitOnChar '\n' text).filter keptLine)) := by
  simp only [clean_page_text]
  rw [foldl_cleanStep_cleaned]
  simp

theorem clean_silent (out : List Char) (p2 : Nat) (tr2 : DiscardTracker)
    (h : ∀ l ∈ splitOnChar '\n' out,
      pyStrip l = [] ∨ classifyLine (pyStrip l) = .keep) :
    discardState (clean_page_text out p2 tr2).2 = discardState tr2 := by
  simp only [clean_page_text]
  exact foldl_cleanStep_silent p2 _ h _

/-- Claim C9: the line classifier is idempotent on its kept output — running
`clean_page_text` on the cleaned output of a previous run discards nothing:
the second run's tracker keeps its record list, its running total and all
nine per-category counters unchanged. -/
theorem claim_C9 (text : List Char) (p1 : Nat) (tr1 : DiscardTracker)
    (p2 : Nat) (tr2 : DiscardTracker) :
    discardState (clean_page_text (clean_page_text text p1 tr1).1 p2 tr2).2 =
      discardState tr2 := by
  rcases hk : (splitOnChar '\n' text).filter keptLine with _ | ⟨k, ks⟩
  · rw [clean_page_text_fst, hk]
    apply clean_silent
    intro l hl
    have : l = [] := by
      simpa [joinLines, collapseSpaces, splitOnChar] using hl
    left
    rw [this]
    rfl
  · rw [clean_page_text_fst, hk]
    apply clean_silent
    intro l hl
    have hnomem : ∀ x ∈ (k :: ks).map collapseSpaces, '\n' ∉ x := by
      intro x hx
      obtain ⟨l0, hl0, rfl⟩ := List.mem_map.mp hx
      have hl0' : l0 ∈ (splitOnChar '\n' text).filter keptLine := by
        rw [hk]
        exact hl0
      have : '\n' ∉ l0 := not_mem_of_mem_splitOnChar '\n' text l0
        (List.mem_filter.mp hl0').1
      exact fun hm => this (mem_of_mem_collapse '\n' l0 hm)
    rw [collapse_joinLines,
      splitOnChar_joinLines ((k :: ks).map collapseSpaces) (by simp) hnomem]
      at hl
    obtain ⟨l0, hl0, rfl⟩ := List.mem_map.mp hl
    have hl0' : l0 ∈ (splitOnChar '\n' text).filter keptLine := by
      rw [hk]
      exact hl0
    obtain ⟨hne, hcl⟩ := (keptLine_iff l0).mp (List.mem_filter.mp hl0').2
    right
    rw [pyStrip_collapse]
    exact classify_collapse_keep l0 hne hcl
